import Mathlib

/-!
Verification development for the Thrive Cash FIFO matching engine
(`src/fifo_matching.py`) and its data-quality validation framework
(`src/data_quality.py`).

The transaction frame is modelled as a `List Txn`, one entry per row of the
`TC_Data` sheet, in frame order.  Timestamps are modelled as integers
(comparable instants), amounts as rationals (signed decimals).  The `REDEEMID`
column is carried on each row as an optional field; `perform_fifo_matching`
reinitialises it to `none` before matching, exactly as the source resets the
column to `None`.  `pandas.DataFrame.sort_values` is modelled as a stable
insertion sort on the sort key (ties keep input order).
-/

namespace ThriveCash

/-- Timestamps (`CREATEDAT`, `EXPIREDAT`): comparable instants. -/
abbrev Time := Int

/-- One row of the TC_Data frame (schema documented in `load_tc_data`),
together with the `REDEEMID` column written by the engine. -/
structure Txn where
  trans_id : Int
  tctype : String
  createdat : Time
  expiredat : Option Time
  customerid : Int
  orderid : Option Int
  amount : ℚ
  reason : Option String
  redeemid : Option Int
deriving DecidableEq, Repr

/-- Reset of the `REDEEMID` column on one row (`result_df['REDEEMID'] = None`).
Also used to compare rows up to their `REDEEMID` value. -/
def clearRef (t : Txn) : Txn := { t with redeemid := none }

/-- `pandas.Series.unique`: values in order of first appearance. -/
def uniqueFirst [DecidableEq α] (l : List α) : List α :=
  l.foldl (fun acc a => if a ∈ acc then acc else acc ++ [a]) []

/-- Insert into a list sorted by `key`, after every entry whose key is `≤` the
inserted one: the single step of the stable sort below. -/
def insLE (key : α → Time) (a : α) : List α → List α
  | [] => [a]
  | b :: l => if key b ≤ key a then b :: insLE key a l else a :: b :: l

/-- Stable sort ascending by `key` (`sort_values('CREATEDAT')`; rows with
equal keys keep their input order). -/
def sortOn (key : α → Time) (l : List α) : List α :=
  l.foldl (fun acc a => insLE key a acc) []

/-- Replace the entry at one frame position (`result_df.loc[i, ...] = ...`);
out-of-range positions leave the frame unchanged. -/
def modifyIdx (f : α → α) : Nat → List α → List α
  | _, [] => []
  | 0, a :: l => f a :: l
  | n + 1, a :: l => a :: modifyIdx f n l

/-- Rows paired with their frame positions starting at `n` (the pandas
`RangeIndex`; `enumIdx 0 l` is `l.enum`). -/
def enumIdx (n : Nat) : List α → List (Nat × α)
  | [] => []
  | a :: l => (n, a) :: enumIdx (n + 1) l

/-- The inner loop of `perform_fifo_matching` over the pool of available
earned lots, for a single redemption (lines 203–243): `st` is the working
frame (`result_df`), `avail` the pool as (frame position, snapshot row) pairs
in FIFO order, `remaining` the amount still to match.  The `break` at
`remaining ≤ 0` keeps the untouched rest of the pool; the temporal `continue`
skips an earned lot created after the redemption but keeps it in the pool; a
matched lot gets `REDEEMID := redemption id` written into the frame, its full
amount subtracted from `remaining`, and is removed from the pool. -/
def matchScan (redId : Int) (redDate : Time) :
    ℚ → List (Nat × Txn) → List Txn → List Txn × List (Nat × Txn)
  | _, [], st => (st, [])
  | remaining, (i, e) :: rest, st =>
    if remaining ≤ 0 then (st, (i, e) :: rest)
    else if redDate < e.createdat then
      let res := matchScan redId redDate remaining rest st
      (res.1, (i, e) :: res.2)
    else
      matchScan redId redDate (remaining - e.amount) rest
        (modifyIdx (fun t => { t with redeemid := some redId }) i st)

/-- Body of the loop over redemptions (line 203): take the redemption's
absolute amount and scan the pool of available earned lots. -/
def processRedemption (sa : List Txn × List (Nat × Txn)) (red : Txn) :
    List Txn × List (Nat × Txn) :=
  matchScan red.trans_id red.createdat |red.amount| sa.2 sa.1

/-- One customer's rows with their frame positions
(`result_df[result_df['CUSTOMERID'] == customer_id]`). -/
def customerRows (st : List Txn) (c : Int) : List (Nat × Txn) :=
  (enumIdx 0 st).filter (fun p => p.2.customerid == c)

/-- Predicate for redemption rows (`TCTYPE.isin(['spent', 'expired'])`). -/
def isRedemptionRow (t : Txn) : Bool :=
  t.tctype == "spent" || t.tctype == "expired"

/-- FIFO matching for one customer (lines 167–252): filter the customer's
rows from the working frame, split earned vs spent/expired, sort both by
creation date (stable), and run the matching loop over redemptions; a
customer with no earned or no redemption rows is skipped. -/
def processCustomer (st : List Txn) (c : Int) : List Txn :=
  let rows := customerRows st c
  let earned := sortOn (fun p => p.2.createdat)
    (rows.filter (fun p => p.2.tctype == "earned"))
  let reds := sortOn (fun p => p.2.createdat)
    (rows.filter (fun p => isRedemptionRow p.2))
  if earned.isEmpty || reds.isEmpty then st
  else (reds.foldl (fun sa p => processRedemption sa p.2) (st, earned)).1

/-- `perform_fifo_matching` (lines 99–264): copy the frame, reset the
`REDEEMID` column to null on every row, then process each customer
independently, in order of first appearance. -/
def perform_fifo_matching (df : List Txn) : List Txn :=
  let init := df.map clearRef
  (uniqueFirst (init.map (·.customerid))).foldl processCustomer init

/-- The per-customer allocation as a standalone function of one customer's
sub-frame (rows in frame order, positions local to the sub-frame).  Used to
state customer isolation: `perform_fifo_matching` acts on each customer's
rows exactly as `fifoLocal` does on the sub-frame alone. -/
def fifoLocal (l : List Txn) : List Txn :=
  let earned := sortOn (fun p => p.2.createdat)
    ((enumIdx 0 l).filter (fun p => p.2.tctype == "earned"))
  let reds := sortOn (fun p => p.2.createdat)
    ((enumIdx 0 l).filter (fun p => isRedemptionRow p.2))
  if earned.isEmpty || reds.isEmpty then l
  else (reds.foldl (fun sa p => processRedemption sa p.2) (l, earned)).1

/-! ### Basic lemmas about the frame operations -/

theorem clearRef_clearRef (t : Txn) : clearRef (clearRef t) = clearRef t := rfl

theorem map_clearRef_idem (df : List Txn) :
    (df.map clearRef).map clearRef = df.map clearRef := by
  rw [List.map_map]; rfl

theorem length_modifyIdx (f : α → α) :
    ∀ (n : Nat) (l : List α), (modifyIdx f n l).length = l.length
  | n, [] => by cases n <;> rfl
  | 0, _ :: _ => rfl
  | n + 1, a :: l => by simp [modifyIdx, length_modifyIdx f n l]

theorem map_modifyIdx (g : α → β) (f : α → α) (h : ∀ a, g (f a) = g a) :
    ∀ (n : Nat) (l : List α), (modifyIdx f n l).map g = l.map g
  | n, [] => by cases n <;> rfl
  | 0, a :: l => by simp [modifyIdx, h a]
  | n + 1, a :: l => by simp [modifyIdx, map_modifyIdx g f h n l]

theorem mem_modifyIdx (f : α → α) :
    ∀ (n : Nat) (l : List α) (x : α), x ∈ modifyIdx f n l →
      x ∈ l ∨ ∃ a, l[n]? = some a ∧ x = f a
  | _, [], x, hx => absurd hx (by simp [modifyIdx])
  | 0, a :: l, x, hx => by
    rcases List.mem_cons.mp hx with h | h
    · exact Or.inr ⟨a, by simp, h⟩
    · exact Or.inl (List.mem_cons_of_mem a h)
  | n + 1, a :: l, x, hx => by
    rcases List.mem_cons.mp hx with h | h
    · exact Or.inl (h ▸ List.mem_cons_self a l)
    · rcases mem_modifyIdx f n l x h with h2 | ⟨b, hb, hxb⟩
      · exact Or.inl (List.mem_cons_of_mem a h2)
      · exact Or.inr ⟨b, by simpa using hb, hxb⟩

theorem mem_insLE (key : α → Time) (a x : α) :
    ∀ l : List α, x ∈ insLE key a l ↔ x = a ∨ x ∈ l
  | [] => by simp [insLE]
  | b :: l => by
    by_cases h : key b ≤ key a
    · simp only [insLE, if_pos h, List.mem_cons, mem_insLE key a x l]
      tauto
    · simp only [insLE, if_neg h, List.mem_cons]

theorem mem_foldl_insLE (key : α → Time) (x : α) :
    ∀ (l acc : List α),
      x ∈ l.foldl (fun acc a => insLE key a acc) acc ↔ x ∈ acc ∨ x ∈ l
  | [], acc => by simp
  | b :: l, acc => by
    rw [List.foldl_cons, mem_foldl_insLE key x l, mem_insLE]
    simp only [List.mem_cons]
    tauto

theorem mem_sortOn (key : α → Time) (x : α) (l : List α) :
    x ∈ sortOn key l ↔ x ∈ l := by
  simp [sortOn, mem_foldl_insLE]

theorem map_insLE (ψ : α → β) (ka : α → Time) (kb : β → Time)
    (h : ∀ x, kb (ψ x) = ka x) (a : α) :
    ∀ l : List α, (insLE ka a l).map ψ = insLE kb (ψ a) (l.map ψ)
  | [] => rfl
  | b :: l => by
    by_cases hb : ka b ≤ ka a
    · simp only [insLE, if_pos hb, List.map_cons, map_insLE ψ ka kb h a l, h,
        if_pos (show kb (ψ b) ≤ kb (ψ a) by rw [h, h]; exact hb)]
    · simp only [insLE, if_neg hb, List.map_cons,
        if_neg (show ¬kb (ψ b) ≤ kb (ψ a) by rw [h, h]; exact hb)]

theorem map_foldl_insLE (ψ : α → β) (ka : α → Time) (kb : β → Time)
    (h : ∀ x, kb (ψ x) = ka x) :
    ∀ (l acc : List α),
      (l.foldl (fun acc a => insLE ka a acc) acc).map ψ =
        (l.map ψ).foldl (fun acc b => insLE kb b acc) (acc.map ψ)
  | [], _ => rfl
  | b :: l, acc => by
    rw [List.foldl_cons, List.map_cons, List.foldl_cons,
      map_foldl_insLE ψ ka kb h l, map_insLE ψ ka kb h]

theorem map_sortOn (ψ : α → β) (ka : α → Time) (kb : β → Time)
    (h : ∀ x, kb (ψ x) = ka x) (l : List α) :
    (sortOn ka l).map ψ = sortOn kb (l.map ψ) :=
  map_foldl_insLE ψ ka kb h l []

theorem mem_foldl_uniqueAux [DecidableEq α] (x : α) :
    ∀ (l acc : List α),
      x ∈ l.foldl (fun acc a => if a ∈ acc then acc else acc ++ [a]) acc ↔
        x ∈ acc ∨ x ∈ l
  | [], acc => by simp
  | a :: l, acc => by
    rw [List.foldl_cons]
    by_cases h : a ∈ acc
    · rw [if_pos h, mem_foldl_uniqueAux x l acc]
      simp only [List.mem_cons]
      constructor
      · tauto
      · rintro (hx | rfl | hx) <;> tauto
    · rw [if_neg h, mem_foldl_uniqueAux x l (acc ++ [a])]
      simp only [List.mem_append, List.mem_singleton, List.mem_cons]
      tauto

theorem mem_uniqueFirst [DecidableEq α] (x : α) (l : List α) :
    x ∈ uniqueFirst l ↔ x ∈ l := by
  simp [uniqueFirst, mem_foldl_uniqueAux]

theorem nodup_foldl_uniqueAux [DecidableEq α] :
    ∀ (l acc : List α), acc.Nodup →
      (l.foldl (fun acc a => if a ∈ acc then acc else acc ++ [a]) acc).Nodup
  | [], _, h => h
  | a :: l, acc, h => by
    rw [List.foldl_cons]
    by_cases ha : a ∈ acc
    · rw [if_pos ha]
      exact nodup_foldl_uniqueAux l acc h
    · rw [if_neg ha]
      refine nodup_foldl_uniqueAux l (acc ++ [a]) ?_
      simp [List.nodup_append, h, List.disjoint_singleton, ha]

theorem nodup_uniqueFirst [DecidableEq α] (l : List α) : (uniqueFirst l).Nodup :=
  nodup_foldl_uniqueAux l [] List.nodup_nil

/-! ### The engine only writes the `REDEEMID` column -/

theorem matchScan_fst_map_clearRef (redId : Int) (redDate : Time) :
    ∀ (avail : List (Nat × Txn)) (rem : ℚ) (st : List Txn),
      ((matchScan redId redDate rem avail st).1).map clearRef = st.map clearRef
  | [], _, _ => rfl
  | (i, e) :: rest, rem, st => by
    by_cases h0 : rem ≤ 0
    · simp [matchScan, h0]
    · by_cases h1 : redDate < e.createdat
      · simp [matchScan, h0, h1,
          matchScan_fst_map_clearRef redId redDate rest rem st]
      · simp only [matchScan, if_neg h0, if_neg h1]
        rw [matchScan_fst_map_clearRef redId redDate rest _ _,
          map_modifyIdx clearRef (fun t => { t with redeemid := some redId })
            (fun _ => rfl) i st]

theorem foldl_processRedemption_map_clearRef :
    ∀ (rs : List (Nat × Txn)) (sa : List Txn × List (Nat × Txn)),
      ((rs.foldl (fun sa p => processRedemption sa p.2) sa).1).map clearRef =
        sa.1.map clearRef
  | [], _ => rfl
  | p :: rs, sa => by
    rw [List.foldl_cons, foldl_processRedemption_map_clearRef rs _]
    exact matchScan_fst_map_clearRef _ _ _ _ _

theorem processCustomer_map_clearRef (st : List Txn) (c : Int) :
    (processCustomer st c).map clearRef = st.map clearRef := by
  simp only [processCustomer]
  split
  · rfl
  · exact foldl_processRedemption_map_clearRef _ _

theorem foldl_processCustomer_map_clearRef :
    ∀ (cs : List Int) (st : List Txn),
      ((cs.foldl processCustomer st).map clearRef) = st.map clearRef
  | [], _ => rfl
  | c :: cs, st => by
    rw [List.foldl_cons, foldl_processCustomer_map_clearRef cs _,
      processCustomer_map_clearRef]

theorem perform_map_clearRef (df : List Txn) :
    (perform_fifo_matching df).map clearRef = df.map clearRef := by
  unfold perform_fifo_matching
  rw [foldl_processCustomer_map_clearRef, map_clearRef_idem]

/-! ### Claim theorems: frame, idempotence, Scenario A -/

/-- C4: for every input batch, the output of `perform_fifo_matching` has
exactly the same rows in the same order (no row deleted or added), and on
every row all fields other than the `REDEEMID` annotation keep their input
values — the rows agree after clearing the `REDEEMID` column. -/
theorem output_frame (df : List Txn) :
    (perform_fifo_matching df).length = df.length ∧
      ∀ i : Nat, (perform_fifo_matching df)[i]?.map clearRef =
        df[i]?.map clearRef := by
  have h := perform_map_clearRef df
  refine ⟨?_, fun i => ?_⟩
  · simpa using congrArg List.length h
  · simpa [List.getElem?_map] using congrArg (fun l => l[i]?) h

/-- C10: `perform_fifo_matching` is idempotent under composition: applied to
its own output it returns that output unchanged, because it reinitialises the
`REDEEMID` column before matching and reads only fields it never writes. -/
theorem matching_idempotent (df : List Txn) :
    perform_fifo_matching (perform_fifo_matching df) = perform_fifo_matching df := by
  show (uniqueFirst (((perform_fifo_matching df).map clearRef).map (·.customerid))).foldl
      processCustomer ((perform_fifo_matching df).map clearRef) = _
  rw [perform_map_clearRef df]
  rfl

/-- The three Scenario A rows for one customer: Earned 20 on 2023-01-01
(id 1001), Earned 30 on 2023-01-15 (id 1002), Spent 25 on 2023-02-01
(id 1003).  Dates are encoded as yyyymmdd instants. -/
def scenarioA (c : Int) : List Txn :=
  [⟨1001, "earned", 20230101, none, c, none, 20, none, none⟩,
   ⟨1002, "earned", 20230115, none, c, none, 30, none, none⟩,
   ⟨1003, "spent", 20230201, none, c, none, -25, none, none⟩]

/-- C1: on the Scenario A batch of one customer, `perform_fifo_matching`
assigns `REDEEMID = 1003` to both earned rows 1001 and 1002 (lot 1001 is
consumed in full first, the remaining 5 > 0 then consumes lot 1002 in full
because lots are never split), and row 1003 itself keeps a null `REDEEMID`. -/
theorem scenarioA_matching (c : Int) :
    perform_fifo_matching (scenarioA c) =
      [⟨1001, "earned", 20230101, none, c, none, 20, none, some 1003⟩,
       ⟨1002, "earned", 20230115, none, c, none, 30, none, some 1003⟩,
       ⟨1003, "spent", 20230201, none, c, none, -25, none, none⟩] := by
  norm_num [perform_fifo_matching, scenarioA, clearRef, uniqueFirst, processCustomer,
    customerRows, sortOn, insLE, isRedemptionRow, processRedemption, matchScan,
    modifyIdx, Function.comp, List.foldl, enumIdx, List.filter]

/-! ### The temporal guard -/

/-- There is a spent/expired row in `df0` with id `r` created no earlier
than instant `d`: the obligation attached to a `REDEEMID` value `r` written
on a row created at `d`. -/
def RefOK (df0 : List Txn) (d : Time) (r : Int) : Prop :=
  ∃ u ∈ df0, (u.tctype = "spent" ∨ u.tctype = "expired") ∧ u.trans_id = r ∧
    d ≤ u.createdat

/-- Invariant of the working frame during matching: it agrees with the reset
input frame `df0` up to the `REDEEMID` column, and every `REDEEMID` already
written points at a spent/expired row of `df0` created no earlier than the
annotated row. -/
def TemporalInv (df0 st : List Txn) : Prop :=
  st.map clearRef = df0 ∧
    ∀ t ∈ st, ∀ r : Int, t.redeemid = some r → RefOK df0 t.createdat r

/-- Every entry of the pool records the frame position of its own row. -/
def AvailOK (df0 : List Txn) (avail : List (Nat × Txn)) : Prop :=
  ∀ p ∈ avail, df0[p.1]? = some (clearRef p.2)

theorem mem_enumIdx :
    ∀ (l : List α) (n : Nat) (p : Nat × α), p ∈ enumIdx n l →
      ∃ j, p.1 = n + j ∧ l[j]? = some p.2
  | [], _, p, h => absurd h (by simp [enumIdx])
  | a :: l, n, p, h => by
    rcases List.mem_cons.mp h with rfl | h
    · exact ⟨0, by simp⟩
    · obtain ⟨j, hj, hget⟩ := mem_enumIdx l (n + 1) p h
      exact ⟨j + 1, by omega, by simpa using hget⟩

theorem customerRows_getElem (st : List Txn) (c : Int) :
    ∀ p ∈ customerRows st c, st[p.1]? = some p.2 := by
  intro p hp
  obtain ⟨j, hj, hget⟩ := mem_enumIdx st 0 p (List.mem_of_mem_filter hp)
  simpa [hj] using hget

theorem matchScan_temporal (df0 : List Txn) (redId : Int) (redDate : Time)
    (hred : RefOK df0 redDate redId) :
    ∀ (avail : List (Nat × Txn)) (rem : ℚ) (st : List Txn),
      TemporalInv df0 st → AvailOK df0 avail →
      TemporalInv df0 (matchScan redId redDate rem avail st).1 ∧
        AvailOK df0 (matchScan redId redDate rem avail st).2
  | [], rem, st, hst, _ => ⟨hst, fun _ hp => absurd hp (List.not_mem_nil _)⟩
  | (i, e) :: rest, rem, st, hst, hav => by
    by_cases h0 : rem ≤ 0
    · simpa [matchScan, h0] using ⟨hst, hav⟩
    · by_cases h1 : redDate < e.createdat
      · have ih := matchScan_temporal df0 redId redDate hred rest rem st hst
          (fun p hp => hav p (List.mem_cons_of_mem _ hp))
        simp only [matchScan, if_neg h0, if_pos h1]
        refine ⟨ih.1, fun p hp => ?_⟩
        rcases List.mem_cons.mp hp with rfl | hp
        · exact hav (i, e) (List.mem_cons_self _ _)
        · exact ih.2 p hp
      · -- the lot is matched: write `REDEEMID := redId` at position `i`
        simp only [matchScan, if_neg h0, if_neg h1]
        have hie : df0[i]? = some (clearRef e) := hav (i, e) (List.mem_cons_self _ _)
        refine matchScan_temporal df0 redId redDate hred rest (rem - e.amount) _
          ⟨?_, ?_⟩ (fun p hp => hav p (List.mem_cons_of_mem _ hp))
        · rw [map_modifyIdx clearRef (fun t => { t with redeemid := some redId })
            (fun _ => rfl) i st]
          exact hst.1
        · intro t ht r hr
          rcases mem_modifyIdx _ i st t ht with hold | ⟨a, ha, rfl⟩
          · exact hst.2 t hold r hr
          · obtain rfl : redId = r := by simpa using hr
            obtain ⟨u, hu, hkind, hid, hd⟩ := hred
            refine ⟨u, hu, hkind, hid, ?_⟩
            have hkey : clearRef a = clearRef e := by
              have h2 : (st.map clearRef)[i]? = some (clearRef e) := by
                rw [hst.1]; exact hie
              rw [List.getElem?_map, ha, Option.map_some'] at h2
              exact Option.some.inj h2
            have hae : a.createdat = e.createdat :=
              show (clearRef a).createdat = (clearRef e).createdat from
                congrArg Txn.createdat hkey
            have : a.createdat ≤ redDate := by
              rw [hae]; exact le_of_not_lt h1
            exact le_trans this hd

theorem foldl_processRedemption_temporal (df0 : List Txn) :
    ∀ (rs : List (Nat × Txn)) (sa : List Txn × List (Nat × Txn)),
      (∀ p ∈ rs, RefOK df0 p.2.createdat p.2.trans_id) →
      TemporalInv df0 sa.1 → AvailOK df0 sa.2 →
      TemporalInv df0 ((rs.foldl (fun sa p => processRedemption sa p.2) sa).1)
  | [], _, _, hst, _ => hst
  | p :: rs, sa, hrs, hst, hav => by
    rw [List.foldl_cons]
    have step := matchScan_temporal df0 p.2.trans_id p.2.createdat
      (hrs p (List.mem_cons_self _ _)) sa.2 |p.2.amount| sa.1 hst hav
    exact foldl_processRedemption_temporal df0 rs _
      (fun q hq => hrs q (List.mem_cons_of_mem _ hq)) step.1 step.2

theorem processCustomer_temporal (df0 st : List Txn) (c : Int)
    (h : TemporalInv df0 st) : TemporalInv df0 (processCustomer st c) := by
  simp only [processCustomer]
  split
  · exact h
  · refine foldl_processRedemption_temporal df0 _ _ ?_ h ?_
    · intro p hp
      rw [mem_sortOn] at hp
      have hrow := List.mem_of_mem_filter hp
      have hget := customerRows_getElem st c p hrow
      have hkind : isRedemptionRow p.2 = true := (List.mem_filter.mp hp).2
      have hdf : df0[p.1]? = some (clearRef p.2) := by
        rw [← h.1]
        simp [List.getElem?_map, hget]
      have hmem : clearRef p.2 ∈ df0 := by
        obtain ⟨hlt, hl⟩ := List.getElem?_eq_some.mp hdf
        exact hl ▸ List.getElem_mem hlt
      refine ⟨clearRef p.2, hmem, ?_, rfl, le_refl _⟩
      simpa [isRedemptionRow, clearRef] using hkind
    · intro p hp
      rw [mem_sortOn] at hp
      have hget := customerRows_getElem st c p (List.mem_of_mem_filter hp)
      rw [← h.1]
      simp [List.getElem?_map, hget]

theorem foldl_processCustomer_temporal (df0 : List Txn) :
    ∀ (cs : List Int) (st : List Txn), TemporalInv df0 st →
      TemporalInv df0 (cs.foldl processCustomer st)
  | [], _, h => h
  | c :: cs, st, h => by
    rw [List.foldl_cons]
    exact foldl_processCustomer_temporal df0 cs _ (processCustomer_temporal df0 st c h)

theorem perform_temporalInv (df : List Txn) :
    TemporalInv (df.map clearRef) (perform_fifo_matching df) := by
  unfold perform_fifo_matching
  refine foldl_processCustomer_temporal _ _ _ ⟨map_clearRef_idem df, ?_⟩
  intro t ht r hr
  obtain ⟨x, _, rfl⟩ := List.mem_map.mp ht
  simp [clearRef] at hr

/-- C2: in the output of `perform_fifo_matching`, every Earned row carrying a
`REDEEMID` references a spent/expired row whose creation instant is greater
than or equal to the Earned row's own creation instant: the engine never
points at a redemption created strictly earlier, while equal instants are
permitted. -/
theorem temporal_guard (df : List Txn) :
    ∀ t ∈ perform_fifo_matching df, t.tctype = "earned" →
      ∀ r : Int, t.redeemid = some r →
        ∃ u ∈ perform_fifo_matching df,
          (u.tctype = "spent" ∨ u.tctype = "expired") ∧ u.trans_id = r ∧
            t.createdat ≤ u.createdat := by
  intro t ht _ r hr
  obtain ⟨u, hu, hkind, hid, hle⟩ := (perform_temporalInv df).2 t ht r hr
  have hu2 : u ∈ (perform_fifo_matching df).map clearRef := by
    rw [perform_map_clearRef]; exact hu
  obtain ⟨v, hv, rfl⟩ := List.mem_map.mp hu2
  exact ⟨v, hv, hkind, hid, hle⟩

/-- The batch used to witness the temporal guard: one customer earns 7 at
instant 100 (id 1) and spends 7 at instant 150 (id 2). -/
def tgBatch : List Txn :=
  [⟨1, "earned", 100, none, 42, none, 7, none, none⟩,
   ⟨2, "spent", 150, none, 42, none, -7, none, none⟩]

theorem temporal_guard_witness :
    ∃ u ∈ perform_fifo_matching tgBatch,
      (u.tctype = "spent" ∨ u.tctype = "expired") ∧ u.trans_id = 2 ∧
        (100 : Time) ≤ u.createdat :=
  temporal_guard tgBatch ⟨1, "earned", 100, none, 42, none, 7, none, some 2⟩
    (by norm_num [perform_fifo_matching, tgBatch, clearRef, uniqueFirst,
      processCustomer, customerRows, sortOn, insLE, isRedemptionRow,
      processRedemption, matchScan, modifyIdx, Function.comp, List.foldl,
      enumIdx, List.filter])
    rfl 2 rfl

/-! ### Customer isolation: relating global frame positions to positions in
one customer's sub-frame -/

/-- Position translation: for a frame suffix `l` whose first row sits at
global position `n`, `rankFrom c n l i` counts the rows of customer `c`
strictly before global position `i` — the position that global position `i`
occupies inside the customer's sub-frame. -/
def rankFrom (c : Int) : Nat → List Txn → Nat → Nat
  | _, [], _ => 0
  | n, t :: l, i =>
    if i ≤ n then 0
    else (if t.customerid == c then 1 else 0) + rankFrom c (n + 1) l i

theorem rankFrom_stop (c : Int) (l : List Txn) (n i : Nat) (h : i ≤ n) :
    rankFrom c n l i = 0 := by
  cases l <;> simp [rankFrom, h]

theorem rankFrom_shift (c : Int) :
    ∀ (l : List Txn) (n i : Nat), rankFrom c (n + 1) l (i + 1) = rankFrom c n l i
  | [], _, _ => rfl
  | t :: l, n, i => by
    by_cases h : i ≤ n
    · simp [rankFrom, h]
    · have h2 : ¬i + 1 ≤ n + 1 := by omega
      simp [rankFrom, h, h2, rankFrom_shift c l (n + 1) i]

theorem rankFrom_congr (c : Int) :
    ∀ (l l' : List Txn), l.map clearRef = l'.map clearRef →
      ∀ (n i : Nat), rankFrom c n l i = rankFrom c n l' i
  | [], [], _, _, _ => rfl
  | [], _ :: _, h, _, _ => by simp at h
  | _ :: _, [], h, _, _ => by simp at h
  | t :: l, t' :: l', h, n, i => by
    simp only [List.map_cons, List.cons.injEq] at h
    have hc : t.customerid = t'.customerid :=
      show (clearRef t).customerid = (clearRef t').customerid from
        congrArg Txn.customerid h.1
    by_cases hi : i ≤ n
    · simp [rankFrom, hi]
    · simp [rankFrom, hi, hc, rankFrom_congr c l l' h.2 (n + 1) i]

theorem rankFrom_zero_cons (c : Int) (a : Txn) (l : List Txn) (i : Nat) :
    rankFrom c 0 (a :: l) (i + 1) =
      (if a.customerid == c then 1 else 0) + rankFrom c 0 l i := by
  show (if i + 1 ≤ 0 then 0
    else (if a.customerid == c then 1 else 0) + rankFrom c (0 + 1) l (i + 1)) = _
  rw [if_neg (by omega), rankFrom_shift]

theorem filter_modifyIdx (f : Txn → Txn) (hf : ∀ x, (f x).customerid = x.customerid)
    (c : Int) :
    ∀ (st : List Txn) (i : Nat) (t : Txn), st[i]? = some t →
      (modifyIdx f i st).filter (fun x => x.customerid == c) =
        if t.customerid == c then
          modifyIdx f (rankFrom c 0 st i) (st.filter (fun x => x.customerid == c))
        else st.filter (fun x => x.customerid == c)
  | [], i, t, h => by simp at h
  | a :: l, 0, t, h => by
    obtain rfl : a = t := by simpa using h
    by_cases hc : a.customerid = c
    · have hc2 : (a.customerid == c) = true := beq_iff_eq.mpr hc
      have hfc : ((f a).customerid == c) = true := by rw [hf a]; exact hc2
      rw [show modifyIdx f 0 (a :: l) = f a :: l from rfl,
        @List.filter_cons_of_pos _ (fun x : Txn => x.customerid == c) (f a) l hfc,
        if_pos hc2, rankFrom_stop c (a :: l) 0 0 (le_refl 0),
        @List.filter_cons_of_pos _ (fun x : Txn => x.customerid == c) a l hc2]
      rfl
    · have hc2 : (a.customerid == c) = false := by simp [hc]
      have hfc : ((f a).customerid == c) = false := by rw [hf a]; exact hc2
      rw [show modifyIdx f 0 (a :: l) = f a :: l from rfl,
        @List.filter_cons_of_neg _ (fun x : Txn => x.customerid == c) (f a) l
          (by simp [hfc]),
        if_neg (by simp [hc2]),
        @List.filter_cons_of_neg _ (fun x : Txn => x.customerid == c) a l
          (by simp [hc2])]
  | a :: l, i + 1, t, h => by
    have h2 : l[i]? = some t := by simpa using h
    have IH := filter_modifyIdx f hf c l i t h2
    have hmod : modifyIdx f (i + 1) (a :: l) = a :: modifyIdx f i l := rfl
    by_cases ha : a.customerid = c
    · have ha2 : (a.customerid == c) = true := beq_iff_eq.mpr ha
      have hr : rankFrom c 0 (a :: l) (i + 1) = rankFrom c 0 l i + 1 := by
        rw [rankFrom_zero_cons, ha2]
        simp [Nat.add_comm]
      by_cases ht : t.customerid = c
      · have ht2 : (t.customerid == c) = true := beq_iff_eq.mpr ht
        rw [hmod,
          @List.filter_cons_of_pos _ (fun x : Txn => x.customerid == c) a
            (modifyIdx f i l) ha2,
          IH, if_pos ht2, if_pos ht2, hr,
          @List.filter_cons_of_pos _ (fun x : Txn => x.customerid == c) a l ha2]
        rfl
      · have ht2 : (t.customerid == c) = false := by simp [ht]
        rw [hmod,
          @List.filter_cons_of_pos _ (fun x : Txn => x.customerid == c) a
            (modifyIdx f i l) ha2,
          IH, if_neg (by simp [ht2]), if_neg (by simp [ht2]),
          @List.filter_cons_of_pos _ (fun x : Txn => x.customerid == c) a l ha2]
    · have ha2 : (a.customerid == c) = false := by simp [ha]
      have hr : rankFrom c 0 (a :: l) (i + 1) = rankFrom c 0 l i := by
        rw [rankFrom_zero_cons, ha2]
        simp
      by_cases ht : t.customerid = c
      · have ht2 : (t.customerid == c) = true := beq_iff_eq.mpr ht
        rw [hmod,
          @List.filter_cons_of_neg _ (fun x : Txn => x.customerid == c) a
            (modifyIdx f i l) (by simp [ha2]),
          IH, if_pos ht2, if_pos ht2, hr,
          @List.filter_cons_of_neg _ (fun x : Txn => x.customerid == c) a l
            (by simp [ha2])]
      · have ht2 : (t.customerid == c) = false := by simp [ht]
        rw [hmod,
          @List.filter_cons_of_neg _ (fun x : Txn => x.customerid == c) a
            (modifyIdx f i l) (by simp [ha2]),
          IH, if_neg (by simp [ht2]), if_neg (by simp [ht2]),
          @List.filter_cons_of_neg _ (fun x : Txn => x.customerid == c) a l
            (by simp [ha2])]

theorem mem_enumIdx_le :
    ∀ (l : List α) (n : Nat) (p : Nat × α), p ∈ enumIdx n l → n ≤ p.1 := by
  intro l n p h
  obtain ⟨j, hj, _⟩ := mem_enumIdx l n p h
  omega

/-- The positions of customer `c`'s rows, translated through `rankFrom`, are
exactly the positions those rows occupy in the customer's sub-frame. -/
theorem enumIdx_filter_rank (c : Int) :
    ∀ (st : List Txn) (n k : Nat),
      ((enumIdx n st).filter (fun p => p.2.customerid == c)).map
          (fun p => (k + rankFrom c n st p.1, p.2)) =
        enumIdx k (st.filter (fun t => t.customerid == c))
  | [], _, _ => rfl
  | a :: l, n, k => by
    have he : enumIdx n (a :: l) = (n, a) :: enumIdx (n + 1) l := rfl
    by_cases ha : a.customerid = c
    · have ha2 : (a.customerid == c) = true := beq_iff_eq.mpr ha
      have hcongr : ∀ p ∈ (enumIdx (n + 1) l).filter
          (fun p : Nat × Txn => p.2.customerid == c),
          ((k + rankFrom c n (a :: l) p.1, p.2) : Nat × Txn) =
            ((k + 1) + rankFrom c (n + 1) l p.1, p.2) := by
        intro p hp
        have hle := mem_enumIdx_le l (n + 1) p (List.mem_of_mem_filter hp)
        have hne : ¬p.1 ≤ n := by omega
        have hstep : rankFrom c n (a :: l) p.1 =
            1 + rankFrom c (n + 1) l p.1 := by
          show (if p.1 ≤ n then 0
            else (if a.customerid == c then 1 else 0) + rankFrom c (n + 1) l p.1) = _
          rw [if_neg hne, ha2]
          simp
        rw [hstep]
        rw [Prod.mk.injEq]
        exact ⟨by omega, rfl⟩
      rw [he,
        @List.filter_cons_of_pos _ (fun p : Nat × Txn => p.2.customerid == c)
          (n, a) (enumIdx (n + 1) l) ha2,
        List.map_cons, List.map_congr_left hcongr,
        enumIdx_filter_rank c l (n + 1) (k + 1),
        @List.filter_cons_of_pos _ (fun t : Txn => t.customerid == c) a l ha2,
        rankFrom_stop c (a :: l) n n (le_refl n)]
      rfl
    · have ha2 : (a.customerid == c) = false := by simp [ha]
      have hcongr : ∀ p ∈ (enumIdx (n + 1) l).filter
          (fun p : Nat × Txn => p.2.customerid == c),
          ((k + rankFrom c n (a :: l) p.1, p.2) : Nat × Txn) =
            (k + rankFrom c (n + 1) l p.1, p.2) := by
        intro p hp
        have hle := mem_enumIdx_le l (n + 1) p (List.mem_of_mem_filter hp)
        have hne : ¬p.1 ≤ n := by omega
        have hstep : rankFrom c n (a :: l) p.1 = rankFrom c (n + 1) l p.1 := by
          show (if p.1 ≤ n then 0
            else (if a.customerid == c then 1 else 0) + rankFrom c (n + 1) l p.1) = _
          rw [if_neg hne, ha2]
          simp
        rw [hstep]
      rw [he,
        @List.filter_cons_of_neg _ (fun p : Nat × Txn => p.2.customerid == c)
          (n, a) (enumIdx (n + 1) l) (by simp [ha2]),
        List.map_congr_left hcongr, enumIdx_filter_rank c l (n + 1) k,
        @List.filter_cons_of_neg _ (fun t : Txn => t.customerid == c) a l
          (by simp [ha2])]

/-- Pool alignment between the run on the full frame and the run on one
customer's sub-frame: the pools pair the same snapshot rows in the same
order, with each local position obtained from the global one through
`rankFrom`. -/
def AlignedAvail (c : Int) (df0 : List Txn) (gA lA : List (Nat × Txn)) : Prop :=
  List.Forall₂ (fun p q => p.2 = q.2 ∧ q.1 = rankFrom c 0 df0 p.1) gA lA

/-- All pool entries belong to customer `c`. -/
def AvailCust (c : Int) (gA : List (Nat × Txn)) : Prop :=
  ∀ p ∈ gA, p.2.customerid = c

theorem matchScan_sim (c : Int) (df0 : List Txn) (hdf : df0.map clearRef = df0)
    (redId : Int) (redDate : Time) :
    ∀ (gA lA : List (Nat × Txn)) (rem : ℚ) (stG stL : List Txn),
      stG.map clearRef = df0 →
      stG.filter (fun t => t.customerid == c) = stL →
      AlignedAvail c df0 gA lA → AvailOK df0 gA → AvailCust c gA →
      (matchScan redId redDate rem gA stG).1.map clearRef = df0 ∧
      (matchScan redId redDate rem gA stG).1.filter (fun t => t.customerid == c) =
        (matchScan redId redDate rem lA stL).1 ∧
      AlignedAvail c df0 (matchScan redId redDate rem gA stG).2
        (matchScan redId redDate rem lA stL).2 ∧
      AvailOK df0 (matchScan redId redDate rem gA stG).2 ∧
      AvailCust c (matchScan redId redDate rem gA stG).2 := by
  intro gA
  induction gA with
  | nil =>
    intro lA rem stG stL hmap hfil hal hok hcust
    cases hal
    exact ⟨hmap, hfil, List.Forall₂.nil,
      fun p hp => absurd hp (List.not_mem_nil p),
      fun p hp => absurd hp (List.not_mem_nil p)⟩
  | cons hd gR IH =>
    obtain ⟨i, e⟩ := hd
    intro lA rem stG stL hmap hfil hal hok hcust
    cases hal with
    | cons h1 htail =>
      rename_i q lR
      obtain ⟨k, e2⟩ := q
      obtain ⟨he2, hk⟩ : e = e2 ∧ k = rankFrom c 0 df0 i := h1
      subst he2
      subst hk
      by_cases h0 : rem ≤ 0
      · simp only [matchScan, if_pos h0]
        exact ⟨hmap, hfil, List.Forall₂.cons ⟨rfl, rfl⟩ htail, hok, hcust⟩
      · by_cases h1g : redDate < e.createdat
        · simp only [matchScan, if_neg h0, if_pos h1g]
          have ih := IH lR rem stG stL hmap hfil htail
            (fun p hp => hok p (List.mem_cons_of_mem _ hp))
            (fun p hp => hcust p (List.mem_cons_of_mem _ hp))
          refine ⟨ih.1, ih.2.1, List.Forall₂.cons ⟨rfl, rfl⟩ ih.2.2.1, ?_, ?_⟩
          · intro p hp
            rcases List.mem_cons.mp hp with rfl | hp
            · exact hok (i, e) (List.mem_cons_self _ _)
            · exact ih.2.2.2.1 p hp
          · intro p hp
            rcases List.mem_cons.mp hp with rfl | hp
            · exact hcust (i, e) (List.mem_cons_self _ _)
            · exact ih.2.2.2.2 p hp
        · -- matched: global write at position `i`, local write at its rank
          simp only [matchScan, if_neg h0, if_neg h1g]
          have hie : df0[i]? = some (clearRef e) :=
            hok (i, e) (List.mem_cons_self _ _)
          obtain ⟨a, ha, hkey⟩ : ∃ a, stG[i]? = some a ∧ clearRef a = clearRef e := by
            have h2 : (stG.map clearRef)[i]? = some (clearRef e) := by
              rw [hmap]; exact hie
            rw [List.getElem?_map] at h2
            exact Option.map_eq_some'.mp h2
          have hac : a.customerid = c := by
            have h3 : a.customerid = e.customerid :=
              show (clearRef a).customerid = (clearRef e).customerid from
                congrArg Txn.customerid hkey
            rw [h3]
            exact hcust (i, e) (List.mem_cons_self _ _)
          have hrank : rankFrom c 0 stG i = rankFrom c 0 df0 i :=
            rankFrom_congr c stG df0 (by rw [hmap, hdf]) 0 i
          have hmap2 : (modifyIdx (fun t => { t with redeemid := some redId }) i
              stG).map clearRef = df0 := by
            rw [map_modifyIdx clearRef (fun t => { t with redeemid := some redId })
              (fun _ => rfl) i stG]
            exact hmap
          have hfil2 : (modifyIdx (fun t => { t with redeemid := some redId }) i
              stG).filter (fun t => t.customerid == c) =
              modifyIdx (fun t => { t with redeemid := some redId })
                (rankFrom c 0 df0 i) stL := by
            rw [filter_modifyIdx (fun t => { t with redeemid := some redId })
              (fun _ => rfl) c stG i a ha, if_pos (beq_iff_eq.mpr hac), hfil, hrank]
          exact IH lR (rem - e.amount) _ _ hmap2 hfil2 htail
            (fun p hp => hok p (List.mem_cons_of_mem _ hp))
            (fun p hp => hcust p (List.mem_cons_of_mem _ hp))

theorem isEmpty_map (f : α → β) (l : List α) : (l.map f).isEmpty = l.isEmpty := by
  cases l <;> rfl

theorem foldl_processRedemption_sim (c : Int) (df0 : List Txn)
    (hdf : df0.map clearRef = df0) :
    ∀ (rs : List (Nat × Txn)) (gA lA : List (Nat × Txn)) (stG stL : List Txn),
      stG.map clearRef = df0 →
      stG.filter (fun t => t.customerid == c) = stL →
      AlignedAvail c df0 gA lA → AvailOK df0 gA → AvailCust c gA →
      ((rs.foldl (fun sa p => processRedemption sa p.2) (stG, gA)).1).map clearRef
          = df0 ∧
      ((rs.foldl (fun sa p => processRedemption sa p.2) (stG, gA)).1).filter
          (fun t => t.customerid == c) =
        (rs.foldl (fun sa p => processRedemption sa p.2) (stL, lA)).1
  | [], _, _, _, _, hmap, hfil, _, _, _ => ⟨hmap, hfil⟩
  | p :: rs, gA, lA, stG, stL, hmap, hfil, hal, hok, hcust => by
    rw [List.foldl_cons, List.foldl_cons]
    have step := matchScan_sim c df0 hdf p.2.trans_id p.2.createdat gA lA
      |p.2.amount| stG stL hmap hfil hal hok hcust
    exact foldl_processRedemption_sim c df0 hdf rs _ _ _ _ step.1 step.2.1
      step.2.2.1 step.2.2.2.1 step.2.2.2.2

theorem customerRows_availOK (df0 stG : List Txn) (c : Int)
    (hmap : stG.map clearRef = df0) :
    ∀ p ∈ customerRows stG c, df0[p.1]? = some (clearRef p.2) := by
  intro p hp
  have hget := customerRows_getElem stG c p hp
  rw [← hmap]
  simp [List.getElem?_map, hget]

/-- Processing one customer inside the full frame transforms that customer's
rows exactly as `fifoLocal` transforms the customer's sub-frame. -/
theorem processCustomer_sim (c : Int) (df0 : List Txn)
    (hdf : df0.map clearRef = df0) (stG : List Txn)
    (hmap : stG.map clearRef = df0) :
    (processCustomer stG c).filter (fun t => t.customerid == c) =
      fifoLocal (stG.filter (fun t => t.customerid == c)) := by
  have hcr : (customerRows stG c).map
      (fun p : Nat × Txn => (rankFrom c 0 df0 p.1, p.2)) =
      enumIdx 0 (stG.filter (fun t => t.customerid == c)) := by
    rw [← enumIdx_filter_rank c stG 0 0]
    exact List.map_congr_left (fun p _ => by
      rw [Prod.mk.injEq]
      refine ⟨?_, rfl⟩
      rw [Nat.zero_add, rankFrom_congr c stG df0 (by rw [hmap, hdf]) 0 p.1])
  have hE : sortOn (fun p : Nat × Txn => p.2.createdat)
      ((enumIdx 0 (stG.filter (fun t => t.customerid == c))).filter
        (fun p => p.2.tctype == "earned")) =
      (sortOn (fun p : Nat × Txn => p.2.createdat)
        ((customerRows stG c).filter (fun p => p.2.tctype == "earned"))).map
        (fun p : Nat × Txn => (rankFrom c 0 df0 p.1, p.2)) := by
    rw [← hcr, List.filter_map,
      map_sortOn (fun p : Nat × Txn => (rankFrom c 0 df0 p.1, p.2))
        (fun p : Nat × Txn => p.2.createdat) (fun p : Nat × Txn => p.2.createdat)
        (fun _ => rfl)]
    exact congrArg (fun l : List (Nat × Txn) =>
        sortOn (fun p : Nat × Txn => p.2.createdat)
          (l.map (fun p : Nat × Txn => (rankFrom c 0 df0 p.1, p.2))))
      (List.filter_congr (fun a _ => rfl))
  have hR : sortOn (fun p : Nat × Txn => p.2.createdat)
      ((enumIdx 0 (stG.filter (fun t => t.customerid == c))).filter
        (fun p => isRedemptionRow p.2)) =
      (sortOn (fun p : Nat × Txn => p.2.createdat)
        ((customerRows stG c).filter (fun p => isRedemptionRow p.2))).map
        (fun p : Nat × Txn => (rankFrom c 0 df0 p.1, p.2)) := by
    rw [← hcr, List.filter_map,
      map_sortOn (fun p : Nat × Txn => (rankFrom c 0 df0 p.1, p.2))
        (fun p : Nat × Txn => p.2.createdat) (fun p : Nat × Txn => p.2.createdat)
        (fun _ => rfl)]
    exact congrArg (fun l : List (Nat × Txn) =>
        sortOn (fun p : Nat × Txn => p.2.createdat)
          (l.map (fun p : Nat × Txn => (rankFrom c 0 df0 p.1, p.2))))
      (List.filter_congr (fun a _ => rfl))
  have hal : AlignedAvail c df0
      (sortOn (fun p : Nat × Txn => p.2.createdat)
        ((customerRows stG c).filter (fun p => p.2.tctype == "earned")))
      ((sortOn (fun p : Nat × Txn => p.2.createdat)
        ((customerRows stG c).filter (fun p => p.2.tctype == "earned"))).map
        (fun p : Nat × Txn => (rankFrom c 0 df0 p.1, p.2))) := by
    rw [AlignedAvail, List.forall₂_map_right_iff, List.forall₂_same]
    exact fun p _ => ⟨rfl, rfl⟩
  have hok : AvailOK df0
      (sortOn (fun p : Nat × Txn => p.2.createdat)
        ((customerRows stG c).filter (fun p => p.2.tctype == "earned"))) := by
    intro p hp
    rw [mem_sortOn] at hp
    exact customerRows_availOK df0 stG c hmap p (List.mem_of_mem_filter hp)
  have hcust : AvailCust c
      (sortOn (fun p : Nat × Txn => p.2.createdat)
        ((customerRows stG c).filter (fun p => p.2.tctype == "earned"))) := by
    intro p hp
    rw [mem_sortOn] at hp
    have h2 := List.mem_of_mem_filter hp
    have h3 := (List.mem_filter.mp h2).2
    exact beq_iff_eq.mp h3
  simp only [processCustomer, fifoLocal]
  rw [hE, hR, isEmpty_map, isEmpty_map]
  split
  · rfl
  · rw [List.foldl_map]
    exact (foldl_processRedemption_sim c df0 hdf _ _ _ stG _ hmap rfl
      hal hok hcust).2

theorem matchScan_other (c c2 : Int) (hne : c2 ≠ c) (df0 : List Txn)
    (redId : Int) (redDate : Time) :
    ∀ (gA : List (Nat × Txn)) (rem : ℚ) (stG : List Txn),
      stG.map clearRef = df0 → AvailOK df0 gA → AvailCust c2 gA →
      (matchScan redId redDate rem gA stG).1.map clearRef = df0 ∧
      (matchScan redId redDate rem gA stG).1.filter (fun t => t.customerid == c) =
        stG.filter (fun t => t.customerid == c) ∧
      AvailOK df0 (matchScan redId redDate rem gA stG).2 ∧
      AvailCust c2 (matchScan redId redDate rem gA stG).2
  | [], rem, stG, hmap, hok, hcust => by
    refine ⟨hmap, rfl, ?_, ?_⟩ <;>
      exact fun p hp => absurd hp (List.not_mem_nil p)
  | (i, e) :: rest, rem, stG, hmap, hok, hcust => by
    by_cases h0 : rem ≤ 0
    · simp only [matchScan, if_pos h0]
      exact ⟨hmap, trivial, hok, hcust⟩
    · by_cases h1g : redDate < e.createdat
      · simp only [matchScan, if_neg h0, if_pos h1g]
        have ih := matchScan_other c c2 hne df0 redId redDate rest rem stG hmap
          (fun p hp => hok p (List.mem_cons_of_mem _ hp))
          (fun p hp => hcust p (List.mem_cons_of_mem _ hp))
        refine ⟨ih.1, ih.2.1, ?_, ?_⟩
        · intro p hp
          rcases List.mem_cons.mp hp with rfl | hp
          · exact hok (i, e) (List.mem_cons_self _ _)
          · exact ih.2.2.1 p hp
        · intro p hp
          rcases List.mem_cons.mp hp with rfl | hp
          · exact hcust (i, e) (List.mem_cons_self _ _)
          · exact ih.2.2.2 p hp
      · simp only [matchScan, if_neg h0, if_neg h1g]
        have hie : df0[i]? = some (clearRef e) :=
          hok (i, e) (List.mem_cons_self _ _)
        obtain ⟨a, ha, hkey⟩ : ∃ a, stG[i]? = some a ∧ clearRef a = clearRef e := by
          have h2 : (stG.map clearRef)[i]? = some (clearRef e) := by
            rw [hmap]; exact hie
          rw [List.getElem?_map] at h2
          exact Option.map_eq_some'.mp h2
        have hac : a.customerid = c2 := by
          have h3 : a.customerid = e.customerid :=
            show (clearRef a).customerid = (clearRef e).customerid from
              congrArg Txn.customerid hkey
          rw [h3]
          exact hcust (i, e) (List.mem_cons_self _ _)
        have hmap2 : (modifyIdx (fun t => { t with redeemid := some redId }) i
            stG).map clearRef = df0 := by
          rw [map_modifyIdx clearRef (fun t => { t with redeemid := some redId })
            (fun _ => rfl) i stG]
          exact hmap
        have hfil2 : (modifyIdx (fun t => { t with redeemid := some redId }) i
            stG).filter (fun t => t.customerid == c) =
            stG.filter (fun t => t.customerid == c) := by
          rw [filter_modifyIdx (fun t => { t with redeemid := some redId })
            (fun _ => rfl) c stG i a ha, if_neg]
          simp [hac, hne]
        have ih := matchScan_other c c2 hne df0 redId redDate rest
          (rem - e.amount) _ hmap2
          (fun p hp => hok p (List.mem_cons_of_mem _ hp))
          (fun p hp => hcust p (List.mem_cons_of_mem _ hp))
        exact ⟨ih.1, by rw [ih.2.1, hfil2], ih.2.2.1, ih.2.2.2⟩

theorem foldl_processRedemption_other (c c2 : Int) (hne : c2 ≠ c)
    (df0 : List Txn) :
    ∀ (rs : List (Nat × Txn)) (gA : List (Nat × Txn)) (stG : List Txn),
      stG.map clearRef = df0 → AvailOK df0 gA → AvailCust c2 gA →
      ((rs.foldl (fun sa p => processRedemption sa p.2) (stG, gA)).1).map clearRef
          = df0 ∧
      ((rs.foldl (fun sa p => processRedemption sa p.2) (stG, gA)).1).filter
          (fun t => t.customerid == c) = stG.filter (fun t => t.customerid == c)
  | [], _, _, hmap, _, _ => ⟨hmap, rfl⟩
  | p :: rs, gA, stG, hmap, hok, hcust => by
    rw [List.foldl_cons]
    have step := matchScan_other c c2 hne df0 p.2.trans_id p.2.createdat gA
      |p.2.amount| stG hmap hok hcust
    have ih := foldl_processRedemption_other c c2 hne df0 rs _ _ step.1
      step.2.2.1 step.2.2.2
    exact ⟨ih.1, ih.2.trans step.2.1⟩

theorem processCustomer_other (c c2 : Int) (hne : c2 ≠ c) (df0 stG : List Txn)
    (hmap : stG.map clearRef = df0) :
    (processCustomer stG c2).filter (fun t => t.customerid == c) =
      stG.filter (fun t => t.customerid == c) := by
  simp only [processCustomer]
  split
  · rfl
  · refine (foldl_processRedemption_other c c2 hne df0 _ _ stG hmap ?_ ?_).2
    · intro p hp
      rw [mem_sortOn] at hp
      exact customerRows_availOK df0 stG c2 hmap p (List.mem_of_mem_filter hp)
    · intro p hp
      rw [mem_sortOn] at hp
      exact beq_iff_eq.mp (List.mem_filter.mp (List.mem_of_mem_filter hp)).2

theorem foldl_processCustomer_other (c : Int) (df0 : List Txn) :
    ∀ (cs : List Int) (st : List Txn), st.map clearRef = df0 → c ∉ cs →
      ((cs.foldl processCustomer st).map clearRef = df0) ∧
      (cs.foldl processCustomer st).filter (fun t => t.customerid == c) =
        st.filter (fun t => t.customerid == c)
  | [], _, hmap, _ => ⟨hmap, rfl⟩
  | c2 :: cs, st, hmap, hnotin => by
    rw [List.foldl_cons]
    have hne : c2 ≠ c := fun h => hnotin (h ▸ List.mem_cons_self c2 cs)
    have hmap2 : (processCustomer st c2).map clearRef = df0 := by
      rw [processCustomer_map_clearRef]; exact hmap
    have ih := foldl_processCustomer_other c df0 cs _ hmap2
      (fun h => hnotin (List.mem_cons_of_mem c2 h))
    exact ⟨ih.1, by rw [ih.2, processCustomer_other c c2 hne df0 st hmap]⟩

/-- `perform_fifo_matching` factors through `fifoLocal` on each customer's
sub-frame: one customer's annotated rows are a function of that customer's
reset input rows alone. -/
theorem perform_filter (df : List Txn) (c : Int) :
    (perform_fifo_matching df).filter (fun t => t.customerid == c) =
      fifoLocal ((df.map clearRef).filter (fun t => t.customerid == c)) := by
  show ((uniqueFirst ((df.map clearRef).map (·.customerid))).foldl processCustomer
      (df.map clearRef)).filter (fun t => t.customerid == c) = _
  by_cases hc : c ∈ uniqueFirst ((df.map clearRef).map (·.customerid))
  · obtain ⟨l1, l2, hsplit⟩ := List.append_of_mem hc
    have hnodup := nodup_uniqueFirst ((df.map clearRef).map (·.customerid))
    rw [hsplit] at hnodup
    rw [List.nodup_append] at hnodup
    have hn1 : c ∉ l1 := fun h =>
      hnodup.2.2 h (List.mem_cons_self c l2)
    have hn2 : c ∉ l2 := (List.nodup_cons.mp hnodup.2.1).1
    rw [hsplit, List.foldl_append, List.foldl_cons]
    have hpre := foldl_processCustomer_other c (df.map clearRef) l1
      (df.map clearRef) (map_clearRef_idem df) hn1
    have hmapc : (processCustomer (l1.foldl processCustomer (df.map clearRef))
        c).map clearRef = df.map clearRef := by
      rw [processCustomer_map_clearRef]; exact hpre.1
    have hpost := foldl_processCustomer_other c (df.map clearRef) l2 _ hmapc hn2
    rw [hpost.2, processCustomer_sim c (df.map clearRef) (map_clearRef_idem df)
      _ hpre.1, hpre.2]
  · have hnil : (df.map clearRef).filter (fun t => t.customerid == c) = [] := by
      rw [List.filter_eq_nil_iff]
      intro t ht hbeq
      refine hc ?_
      rw [mem_uniqueFirst]
      exact List.mem_map.mpr ⟨t, ht, beq_iff_eq.mp hbeq⟩
    have hall := foldl_processCustomer_other c (df.map clearRef)
      (uniqueFirst ((df.map clearRef).map (·.customerid))) (df.map clearRef)
      (map_clearRef_idem df) hc
    rw [hall.2, hnil]
    rfl

/-- C3: customer isolation — if two input batches contain exactly the same
rows (in the same relative order) for customer `c`, while other customers'
rows differ arbitrarily or are removed entirely, then `perform_fifo_matching`
produces identical annotated rows (identical `REDEEMID` assignments) for
customer `c` in both runs. -/
theorem customer_isolation (df1 df2 : List Txn) (c : Int)
    (h : df1.filter (fun t => t.customerid == c) =
      df2.filter (fun t => t.customerid == c)) :
    (perform_fifo_matching df1).filter (fun t => t.customerid == c) =
      (perform_fifo_matching df2).filter (fun t => t.customerid == c) := by
  rw [perform_filter, perform_filter]
  congr 1
  rw [List.filter_map, List.filter_map,
    show List.filter ((fun t : Txn => t.customerid == c) ∘ clearRef) df1 =
        List.filter (fun t : Txn => t.customerid == c) df1 from
      List.filter_congr (fun a _ => rfl),
    show List.filter ((fun t : Txn => t.customerid == c) ∘ clearRef) df2 =
        List.filter (fun t : Txn => t.customerid == c) df2 from
      List.filter_congr (fun a _ => rfl),
    h]

/-- Witness batches for customer isolation: both contain the same two rows of
customer 1; the first also contains a row of customer 2. -/
def isoBatchA : List Txn :=
  [⟨1, "earned", 10, none, 1, none, 5, none, none⟩,
   ⟨9, "earned", 5, none, 2, none, 8, none, none⟩,
   ⟨2, "spent", 20, none, 1, none, -5, none, none⟩]

def isoBatchB : List Txn :=
  [⟨1, "earned", 10, none, 1, none, 5, none, none⟩,
   ⟨2, "spent", 20, none, 1, none, -5, none, none⟩]

theorem customer_isolation_witness :
    (perform_fifo_matching isoBatchA).filter (fun t => t.customerid == 1) =
      (perform_fifo_matching isoBatchB).filter (fun t => t.customerid == 1) :=
  customer_isolation isoBatchA isoBatchB 1 rfl

/-! ### Data-quality validation framework (`src/data_quality.py`) -/

/-- Result of one validation check (the `ValidationResult` dataclass).  The
`details` payload (a Python dict) is modelled opaquely as an optional
rendered string; no check's verdict depends on its contents. -/
structure ValidationResult where
  check_name : String
  passed : Bool
  message : String
  severity : String
  details : Option String
deriving DecidableEq, Repr

/-- Aggregated report of validation checks (the `ValidationReport`
dataclass). -/
structure ValidationReport where
  timestamp : Time
  stage : String
  results : List ValidationResult
deriving DecidableEq, Repr

/-- Derived `ValidationReport.passed` (lines 103–106): all ERROR-severity
results passed. -/
def ValidationReport.passed (r : ValidationReport) : Bool :=
  (r.results.filter (fun x => x.severity == "ERROR")).all (fun x => x.passed)

/-- Derived `ValidationReport.error_count` (lines 108–111): failed
ERROR-severity results. -/
def ValidationReport.error_count (r : ValidationReport) : Nat :=
  (r.results.filter (fun x => !x.passed && x.severity == "ERROR")).length

/-- Derived `ValidationReport.warning_count` (lines 113–116). -/
def ValidationReport.warning_count (r : ValidationReport) : Nat :=
  (r.results.filter (fun x => !x.passed && x.severity == "WARNING")).length

/-- The fields required for FIFO matching (line 191). -/
def requiredFields : List String :=
  ["TRANS_ID", "TCTYPE", "CREATEDAT", "CUSTOMERID", "AMOUNT"]

/-- `df[field].isna().sum()`: every required column is total in this model
(the §3 data model normalises them before validation), so the null count is
zero for every field. -/
def nullCount (df : List Txn) (field : String) : Nat := 0

/-- Check 1 (lines 193–204): required field not null, one result per field. -/
def nullCheck (df : List Txn) (field : String) : ValidationResult :=
  let n := nullCount df field
  { check_name := "No Null Values: " ++ field
    passed := n == 0
    message := if n == 0 then
        "All " ++ toString df.length ++ " records have valid " ++ field
      else "Found " ++ toString n ++ " null values in " ++ field
    severity := "ERROR"
    details := if n == 0 then none else some (toString n) }

/-- Transaction-type values outside `{'earned', 'spent', 'expired'}`
(lines 211–213). -/
def invalidTypes (df : List Txn) : List String :=
  (uniqueFirst (df.map (·.tctype))).filter
    (fun ty => !(ty == "earned" || ty == "spent" || ty == "expired"))

/-- Check 2 (lines 215–222): valid transaction types. -/
def typeCheck (df : List Txn) : ValidationResult :=
  { check_name := "Valid Transaction Types"
    passed := (invalidTypes df).length == 0
    message := if (invalidTypes df).length == 0 then
        "All transactions have valid types"
      else "Invalid types found: " ++ toString (invalidTypes df)
    severity := "ERROR"
    details := if (invalidTypes df).isEmpty then none
      else some (toString (invalidTypes df)) }

/-- `df[df['TCTYPE'] == 'earned']['AMOUNT'].gt(0).all()` (line 229). -/
def earned_positive (df : List Txn) : Bool :=
  (df.filter (fun t => t.tctype == "earned")).all (fun t => decide (0 < t.amount))

/-- `df[df['TCTYPE'] == 'spent']['AMOUNT'].lt(0).all()` (line 230). -/
def spent_negative (df : List Txn) : Bool :=
  (df.filter (fun t => t.tctype == "spent")).all (fun t => decide (t.amount < 0))

/-- `df[df['TCTYPE'] == 'expired']['AMOUNT'].lt(0).all()` (line 231). -/
def expired_negative (df : List Txn) : Bool :=
  (df.filter (fun t => t.tctype == "expired")).all (fun t => decide (t.amount < 0))

/-- Check 3 (lines 229–246): amount sign consistency — a single pass/fail
over the whole population. -/
def signCheck (df : List Txn) : ValidationResult :=
  { check_name := "Amount Sign Consistency"
    passed := earned_positive df && spent_negative df && expired_negative df
    message := if earned_positive df && spent_negative df && expired_negative df
      then "All amounts have correct signs (earned>0, spent/expired<0)"
      else "Some amounts have incorrect signs"
    severity := "ERROR"
    details := if earned_positive df && spent_negative df && expired_negative df
      then none
      else some ("earned_all_positive=" ++ toString (earned_positive df) ++
        " spent_all_negative=" ++ toString (spent_negative df) ++
        " expired_all_negative=" ++ toString (expired_negative df)) }

/-- `Series.duplicated()` semantics: every occurrence of a value after its
first one, in order (line 253). -/
def dupAux : List Int → List Int → List Int
  | _, [] => []
  | seen, a :: l => if a ∈ seen then a :: dupAux seen l else dupAux (a :: seen) l

/-- `df[df['TRANS_ID'].duplicated()]['TRANS_ID'].tolist()` (line 253). -/
def duplicateIds (df : List Txn) : List Int :=
  dupAux [] (df.map (·.trans_id))

/-- Check 4 (lines 253–262): no duplicate transaction ids. -/
def dupCheck (df : List Txn) : ValidationResult :=
  { check_name := "No Duplicate Transaction IDs"
    passed := (duplicateIds df).length == 0
    message := if (duplicateIds df).length == 0 then
        "All transaction IDs are unique"
      else "Found " ++ toString (duplicateIds df).length ++ " duplicate TRANS_IDs"
    severity := "ERROR"
    details := if (duplicateIds df).isEmpty then none
      else some (toString (duplicateIds df)) }

/-- Check 5 (lines 269–278): no future dates; Warning because clock skew
could cause this. -/
def futureCheck (df : List Txn) (now : Time) : ValidationResult :=
  let n := (df.filter (fun t => decide (now < t.createdat))).length
  { check_name := "No Future Dates"
    passed := n == 0
    message := if n == 0 then "All transaction dates are in the past"
      else "Found " ++ toString n ++ " transactions with future dates"
    severity := "WARNING"
    details := if n == 0 then none else some (toString n) }

/-- Check 6 (lines 285–294): customer ids are positive.  The CUSTOMERID
column is an integer column in this model, so the source's numeric-dtype
guard is satisfied and the non-positive rows are counted. -/
def custCheck (df : List Txn) : ValidationResult :=
  let n := (df.filter (fun t => decide (t.customerid ≤ 0))).length
  { check_name := "Valid Customer IDs"
    passed := n == 0
    message := if n == 0 then "All customer IDs are valid positive numbers"
      else "Found " ++ toString n ++ " invalid customer IDs"
    severity := "ERROR"
    details := none }

/-- Check 7 (lines 301–312): informational summary, always passes. -/
def summaryCheck (df : List Txn) : ValidationResult :=
  { check_name := "Data Completeness Summary"
    passed := true
    message := "Loaded " ++ toString df.length ++ " transactions for " ++
      toString (uniqueFirst (df.map (·.customerid))).length ++ " customers"
    severity := "INFO"
    details := some (toString df.length) }

/-- `validate_source_data` (lines 146–318): the seven checks in source
order (check 1 contributes one result per required field). -/
def validate_source_data (df : List Txn) (now : Time) : ValidationReport :=
  { timestamp := now
    stage := "source"
    results := (requiredFields.map (fun f => nullCheck df f)) ++
      [typeCheck df, signCheck df, dupCheck df, futureCheck df now,
        custCheck df, summaryCheck df] }

/-- The annotated frame handed to the Result Validator: its rows plus
whether the `REDEEMID` column is present at all
(`'REDEEMID' in matched_df.columns`).  When the column is absent the
row-level `redeemid` fields are never read — the validator returns early. -/
structure Frame where
  rows : List Txn
  hasRedeemid : Bool
deriving DecidableEq, Repr

/-- Result-validation check 1 (lines 370–378): the REDEEMID column exists. -/
def redeemidCheck (matched : Frame) : ValidationResult :=
  { check_name := "REDEEMID Column Exists"
    passed := matched.hasRedeemid
    message := if matched.hasRedeemid then "REDEEMID column successfully added"
      else "REDEEMID column is missing from output"
    severity := "ERROR"
    details := none }

/-- Result-validation check 2 (lines 393–407): assigned REDEEMIDs reference
actual spent/expired transaction ids. -/
def refCheck (matched : Frame) : ValidationResult :=
  let validIds := (matched.rows.filter (fun t => isRedemptionRow t)).map
    (·.trans_id)
  let invalid := (uniqueFirst (matched.rows.filterMap (·.redeemid))).filter
    (fun r => !validIds.contains r)
  { check_name := "REDEEMID References Valid Transactions"
    passed := invalid.length == 0
    message := if invalid.length == 0 then
        "All REDEEMID values reference valid spent/expired transactions"
      else "Found " ++ toString invalid.length ++ " invalid REDEEMID values"
    severity := "ERROR"
    details := if invalid.isEmpty then none else some (toString invalid) }

/-- Result-validation check 3 (lines 414–426): only earned transactions
carry a REDEEMID. -/
def exclusivityCheck (matched : Frame) : ValidationResult :=
  let bad := matched.rows.filter
    (fun t => !(t.tctype == "earned") && t.redeemid.isSome)
  { check_name := "Only Earned Transactions Have REDEEMID"
    passed := bad.length == 0
    message := if bad.length == 0 then
        "REDEEMID only assigned to earned transactions"
      else "Found " ++ toString bad.length ++
        " non-earned transactions with REDEEMID"
    severity := "ERROR"
    details := none }

/-- The chronological scan of check 4 (lines 433–453): for each earned row
with a REDEEMID, look up the first row carrying that transaction id and
record an error when the earned row postdates it. -/
def chronologicalErrors (rows : List Txn) : List (Int × Int) :=
  (rows.filter (fun t => t.tctype == "earned" && t.redeemid.isSome)).filterMap
    (fun e => match e.redeemid with
      | none => none
      | some rid =>
        match rows.filter (fun u => u.trans_id == rid) with
        | [] => none
        | u :: _ =>
          if u.createdat < e.createdat then some (e.trans_id, rid) else none)

/-- Result-validation check 4 (lines 433–462): chronological consistency. -/
def chronologyCheck (matched : Frame) : ValidationResult :=
  { check_name := "Chronological Consistency"
    passed := (chronologicalErrors matched.rows).length == 0
    message := if (chronologicalErrors matched.rows).length == 0 then
        "All matches follow chronological order (earned before redemption)"
      else "Found " ++ toString (chronologicalErrors matched.rows).length ++
        " chronological errors"
    severity := "ERROR"
    details := if (chronologicalErrors matched.rows).isEmpty then none
      else some (toString (chronologicalErrors matched.rows)) }

/-- The per-customer balance scan of check 5 (lines 469–488): customers
whose earned total minus absolute spent and expired totals goes below the
−0.01 tolerance. -/
def balanceErrors (rows : List Txn) : List Int :=
  (uniqueFirst (rows.map (·.customerid))).filter (fun c =>
    let cust := rows.filter (fun t => t.customerid == c)
    let totalEarned := ((cust.filter (fun t => t.tctype == "earned")).map
      (·.amount)).sum
    let totalSpent := |((cust.filter (fun t => t.tctype == "spent")).map
      (·.amount)).sum|
    let totalExpired := |((cust.filter (fun t => t.tctype == "expired")).map
      (·.amount)).sum|
    decide (totalEarned - totalSpent - totalExpired < -(1 / 100 : ℚ)))

/-- Result-validation check 5 (lines 469–497): balance reconciliation per
customer; Warning because a negative balance might be legitimate. -/
def balanceCheck (matched : Frame) : ValidationResult :=
  { check_name := "Customer Balance Reconciliation"
    passed := (balanceErrors matched.rows).length == 0
    message := if (balanceErrors matched.rows).length == 0 then
        "All customer balances reconcile correctly"
      else "Found " ++ toString (balanceErrors matched.rows).length ++
        " customers with negative balances"
    severity := "WARNING"
    details := if (balanceErrors matched.rows).isEmpty then none
      else some (toString (balanceErrors matched.rows)) }

/-- Result-validation check 6 (lines 504–522): informational matching
statistics, always passes. -/
def statsCheck (matched : Frame) : ValidationResult :=
  let total := (matched.rows.filter (fun t => t.tctype == "earned")).length
  let matchedE := (matched.rows.filter
    (fun t => t.tctype == "earned" && t.redeemid.isSome)).length
  { check_name := "Matching Statistics"
    passed := true
    message := "Matched " ++ toString matchedE ++ "/" ++ toString total ++
      " earned transactions (" ++ toString (total - matchedE) ++ " unmatched)"
    severity := "INFO"
    details := some (toString matchedE ++ "/" ++ toString total) }

/-- `validate_fifo_results` (lines 326–528): the schema check first; when
the REDEEMID column is missing the report is returned immediately with only
that one result, otherwise checks 2–6 follow.  `original` is accepted but
never read, as in the source. -/
def validate_fifo_results (original : List Txn) (matched : Frame)
    (now : Time) : ValidationReport :=
  if !matched.hasRedeemid then
    { timestamp := now, stage := "post_fifo", results := [redeemidCheck matched] }
  else
    { timestamp := now
      stage := "post_fifo"
      results := [redeemidCheck matched, refCheck matched,
        exclusivityCheck matched, chronologyCheck matched,
        balanceCheck matched, statsCheck matched] }

/-- The `ValueError` raised by the gate, which carries the failing stage and
its error count (the source renders both into the exception message). -/
structure ValidationError where
  stage : String
  error_count : Nat
deriving DecidableEq, Repr

/-- `validation_gate` (lines 564–596): return the report's pass/fail
boolean, except that a failed report with `fail_on_error` set signals a
terminal error. -/
def validation_gate (report : ValidationReport) (fail_on_error : Bool) :
    Except ValidationError Bool :=
  if !report.passed then
    if fail_on_error then
      Except.error { stage := report.stage, error_count := report.error_count }
    else Except.ok false
  else Except.ok true

/-! ### Claim theorems: validation framework -/

/-- C5: a report's derived `passed` verdict is true iff every result with
severity Error has passed; failed Warning/Info results never make the
overall verdict false. -/
theorem report_passed_iff (rep : ValidationReport) :
    rep.passed = true ↔
      ∀ r ∈ rep.results, r.severity = "ERROR" → r.passed = true := by
  rw [ValidationReport.passed, List.all_eq_true]
  constructor
  · intro h r hr hsev
    exact h r (List.mem_filter.mpr ⟨hr, beq_iff_eq.mpr hsev⟩)
  · intro h r hr
    obtain ⟨hmem, hsev⟩ := List.mem_filter.mp hr
    exact h r hmem (beq_iff_eq.mp hsev)

/-- C6: the gate signals a terminal `ValidationError` carrying the stage and
the error count exactly when `fail_on_error` is true and the report failed;
in every other case it raises nothing and returns the report's pass/fail
boolean. -/
theorem gate_contract (report : ValidationReport) (fail_on_error : Bool) :
    validation_gate report fail_on_error =
      if fail_on_error && !report.passed then
        Except.error { stage := report.stage, error_count := report.error_count }
      else Except.ok report.passed := by
  unfold validation_gate
  cases h : report.passed <;> cases fail_on_error <;> simp

/-- C7: the Source Validator's sign-consistency check is a single
Error-severity result for the whole population, and it passes iff all
Earned amounts are strictly positive, all Spent amounts strictly negative
and all Expired amounts strictly negative. -/
theorem sign_check_spec (df : List Txn) (now : Time) :
    (validate_source_data df now).results.filter
        (fun r => r.check_name == "Amount Sign Consistency") = [signCheck df] ∧
      (signCheck df).severity = "ERROR" ∧
      ((signCheck df).passed = true ↔
        (∀ t ∈ df, t.tctype = "earned" → 0 < t.amount) ∧
        (∀ t ∈ df, t.tctype = "spent" → t.amount < 0) ∧
        (∀ t ∈ df, t.tctype = "expired" → t.amount < 0)) := by
  refine ⟨?_, rfl, ?_⟩
  · simp [validate_source_data, requiredFields, nullCheck, typeCheck,
      signCheck, dupCheck, futureCheck, custCheck, summaryCheck]
  · show (earned_positive df && spent_negative df && expired_negative df) = true ↔ _
    rw [Bool.and_eq_true, Bool.and_eq_true]
    rw [earned_positive, spent_negative, expired_negative]
    simp only [List.all_eq_true, List.mem_filter, decide_eq_true_eq,
      beq_iff_eq, and_imp, and_assoc]

/-- C8: when the annotated batch lacks the REDEEMID column entirely, the
Result Validator returns immediately with exactly one result; that result
fails with severity Error, and the report's overall verdict is false. -/
theorem missing_redeemid_short_circuit (original : List Txn) (matched : Frame)
    (now : Time) (h : matched.hasRedeemid = false) :
    (validate_fifo_results original matched now).results.length = 1 ∧
      (∀ r ∈ (validate_fifo_results original matched now).results,
        r.passed = false ∧ r.severity = "ERROR") ∧
      (validate_fifo_results original matched now).passed = false := by
  simp [validate_fifo_results, h, redeemidCheck, ValidationReport.passed]

theorem missing_redeemid_witness :
    (validate_fifo_results [] ⟨[], false⟩ 0).results.length = 1 ∧
      (∀ r ∈ (validate_fifo_results [] ⟨[], false⟩ 0).results,
        r.passed = false ∧ r.severity = "ERROR") ∧
      (validate_fifo_results [] ⟨[], false⟩ 0).passed = false :=
  missing_redeemid_short_circuit [] ⟨[], false⟩ 0 rfl

/-- C9: the Source Validator's valid-customer-id check is an Error-severity
result that fails iff some row's customer id is non-positive. -/
theorem customer_id_check_spec (df : List Txn) (now : Time) :
    (validate_source_data df now).results.filter
        (fun r => r.check_name == "Valid Customer IDs") = [custCheck df] ∧
      (custCheck df).severity = "ERROR" ∧
      ((custCheck df).passed = false ↔ ∃ t ∈ df, t.customerid ≤ 0) := by
  refine ⟨?_, rfl, ?_⟩
  · simp [validate_source_data, requiredFields, nullCheck, typeCheck,
      signCheck, dupCheck, futureCheck, custCheck, summaryCheck]
  · show (((df.filter (fun t => decide (t.customerid ≤ 0))).length == 0)
        = false ↔ _)
    rw [beq_eq_false_iff_ne]
    constructor
    · intro h
      have hex : ∃ x, x ∈ df.filter (fun x => decide (x.customerid ≤ 0)) :=
        List.exists_mem_of_ne_nil _ (fun hnil => h (by rw [hnil]; rfl))
      obtain ⟨t, ht⟩ := hex
      have := List.mem_filter.mp ht
      exact ⟨t, this.1, of_decide_eq_true this.2⟩
    · intro ⟨t, ht, hle⟩ hlen
      have : t ∈ df.filter (fun t => decide (t.customerid ≤ 0)) :=
        List.mem_filter.mpr ⟨ht, decide_eq_true hle⟩
      rw [List.length_eq_zero.mp hlen] at this
      exact absurd this (List.not_mem_nil t)

end ThriveCash
